import Mathlib

/-!
Verification of the adaptive synchronization scheduler of `heat`
(`src/heat/optim/dp_optimizer.py`, class `SkipBatches`).

The embedding below translates the scheduler's pure logic into Lean:
* machine floats of the loss-control path and of the weighted merge are
  modelled as rationals (the spec declares numeric precision out of scope);
* the cross-process collectives (Allreduce / Iallreduce / broadcast / Wait)
  are transport collaborators: a completed all-reduce is modelled by the
  buffer contents it delivers, and a broadcast by the peer-value function;
* fallible code paths (Python `IndexError` / `KeyError` / torch shape
  errors / explicit `raise`) are modelled with `Option` / `Except`.
-/

/-- A torch parameter tensor as the scheduler sees it: declared shape,
dtype tag, `requires_grad` flag and flattened contents
(`dp_optimizer.py` reads exactly these through `module.named_parameters()`). -/
structure TParam where
  shape : List Nat
  dtype : Nat
  requires_grad : Bool
  data : List ℚ
deriving DecidableEq, Repr

/-- A model is the ordered list of named parameters
(`module.named_parameters()`, insertion order). -/
abbrev Model := List (String × TParam)

/-- `torch.Tensor.numel()`: product of the dimensions. -/
def numel (p : TParam) : Nat := p.shape.prod

/-- The running offset accumulated by `_create_param_dict_n_shapes`
(line 424: `st += numel` for every named parameter, trainable or not);
its final value is the send-buffer shape (line 427). -/
def totalNumel : Model → Nat
  | [] => 0
  | (_, p) :: rest => numel p + totalNumel rest

/-- One entry of the shape dictionary built by `_create_param_dict_n_shapes`
(line 423): `[param.shape, slice(st, st + numel), param.dtype]`. -/
structure ShapeEntry where
  shape : List Nat
  st : Nat
  en : Nat
  dtype : Nat
deriving DecidableEq, Repr

/-- The shape dictionary of `_create_param_dict_n_shapes` (lines 417-424),
generalized over the running start offset: every named parameter gets an
entry, with contiguous offset ranges in declaration order. -/
def createShapesFrom : Nat → Model → List (String × ShapeEntry)
  | _, [] => []
  | st, (n, p) :: rest =>
    (n, ⟨p.shape, st, st + numel p, p.dtype⟩) :: createShapesFrom (st + numel p) rest

/-- `_create_param_dict_n_shapes` (lines 409-430): the shape map over all
named parameters together with the final offset, which becomes
`_param_send_buffer_shape` (the cache branch of lines 414-415 returns this
same value unchanged, so the pure build is modelled). -/
def createParamDictNShapes (ps : Model) : List (String × ShapeEntry) × Nat :=
  (createShapesFrom 0 ps, totalNumel ps)

/-- Element count of the trainable parameters only, following the spec's
words for C3 ("the flat send buffer size equals the total element count of
those trainable parameters"); compared against the code's `totalNumel`. -/
def specTrainableCount : Model → Nat
  | [] => 0
  | (_, p) :: rest => (if p.requires_grad then numel p else 0) + specTrainableCount rest

/-- Python slice read `l[st:en]` (with the in-range uses the claims need). -/
def pySlice (l : List ℚ) (st en : Nat) : List ℚ := (l.take en).drop st

/-- Torch slice assignment `buf[st : st + len(vals)] = vals`. -/
def writeSlice (buf : List ℚ) (st : Nat) (vals : List ℚ) : List ℚ :=
  buf.take st ++ vals ++ buf.drop (st + vals.length)

/-- The loop of `__pack_data` (lines 471-484): walk the parameter dict in
order, and for each `requires_grad` parameter write its flattened values at
the loop's own running offset (non-trainable parameters are skipped and do
not advance the offset).  `cast` applies the bfloat16 downcast `castFn`;
the claims below only exercise `cast = false`. -/
def packLoop (cast : Bool) (castFn : ℚ → ℚ) : Model → List ℚ → Nat → List ℚ
  | [], buf, _ => buf
  | (_, p) :: rest, buf, st =>
    if p.requires_grad then
      let vals := if cast then p.data.map castFn else p.data
      packLoop cast castFn rest (writeSlice buf st vals) (st + numel p)
    else packLoop cast castFn rest buf st

/-- `__pack_data` applied to the freshly zeroed send buffer
(`torch.zeros(self._param_send_buffer_shape)`, lines 373-378). -/
def packData (cast : Bool) (castFn : ℚ → ℚ) (ps : Model) (bufShape : Nat) : List ℚ :=
  packLoop cast castFn ps (List.replicate bufShape 0) 0

/-- Dictionary lookup `shapes[name]` (`None` models Python's `KeyError`). -/
def lookupEntry : List (String × ShapeEntry) → String → Option ShapeEntry
  | [], _ => none
  | (k, e) :: rest, n => if k = n then some e else lookupEntry rest n

/-- One iteration of the per-parameter update loops (lines 334-338 and
531-536): non-trainable parameters are left untouched, trainable ones are
transformed by `f` using their shape-dictionary entry. -/
def applyEntry (f : TParam → ShapeEntry → Option TParam)
    (shapes : List (String × ShapeEntry)) : String × TParam → Option (String × TParam)
  | (n, p) =>
    if p.requires_grad then
      match lookupEntry shapes n with
      | some e => (f p e).map fun p' => (n, p')
      | none => none
    else some (n, p)

/-- The `for name, param in self.module.named_parameters()` loops that
rewrite parameters from a received buffer, using the shape dictionary. -/
def paramLoop (f : TParam → ShapeEntry → Option TParam)
    (shapes : List (String × ShapeEntry)) : Model → Option Model
  | [] => some []
  | x :: rest =>
    (applyEntry f shapes x).bind fun h =>
      (paramLoop f shapes rest).map fun r => h :: r

/-- The write-back of `_full_global_sync` (lines 334-338):
`param[:] = rcv_params[slice].reshape(shape).to(dtype)`.  The reshape and
the in-place slice write require matching element counts (torch raises
otherwise → `none`); the dtype cast is value-preserving in this rational
model. -/
def unpackOne (rcv : List ℚ) (p : TParam) (e : ShapeEntry) : Option TParam :=
  if (pySlice rcv e.st e.en).length = e.shape.prod ∧ e.shape.prod = p.shape.prod then
    some { p with data := pySlice rcv e.st e.en }
  else none

/-- The weighted-merge write of `_update_parameters` (lines 531-536):
`update = rcv[slice].reshape(shape).to(dtype); param *= factor;
param += update`.  Torch requires the update to have the parameter's shape
and the parameter's storage to be consistent (`none` otherwise). -/
def mergeOne (rcv : List ℚ) (factor : ℚ) (p : TParam) (e : ShapeEntry) : Option TParam :=
  if (pySlice rcv e.st e.en).length = e.shape.prod ∧ e.shape = p.shape
      ∧ p.data.length = p.shape.prod then
    some { p with data := p.data.zipWith (fun o u => o * factor + u) (pySlice rcv e.st e.en) }
  else none

/-- The merge rule in the spec's words (§4.3, claim C2):
`param = param * factor + unpack(scaledBuffer)[param]` applied to every
trainable parameter at its reserved offset range, non-trainable parameters
left unchanged.  Stated from the spec for the refinement theorem `c2`. -/
def mergeRuleSpec (rcv : List ℚ) (factor : ℚ) : Nat → Model → Model
  | _, [] => []
  | st, (n, p) :: rest =>
    (if p.requires_grad then
      (n, { p with data := p.data.zipWith (fun o u => o * factor + u) (pySlice rcv st (st + numel p)) })
    else (n, p)) :: mergeRuleSpec rcv factor (st + numel p) rest

/-- One pending reduction record (`self._prev_params` entry, line 381):
the request handle is a transport collaborator, so the record carries the
buffer contents the completed all-reduce delivers, the shape-dictionary
snapshot, the recorded batches-to-wait and the precision tag. -/
structure PendingRec where
  buf : List ℚ
  shapes : List (String × ShapeEntry)
  batches_to_wait : Nat
  tag : Option Nat
deriving DecidableEq, Repr

/-- The scheduler state consulted by `_update_parameters` and the merge
point of `_full_global_sync`. -/
structure OptState where
  comm_rank : Nat
  reduced_ranks : List (List Nat)
  send_mod : Nat
  send_mod_m1 : Option Nat
  prev_params : List PendingRec
  apex : Bool
deriving DecidableEq, Repr

/-- `_update_parameters` (lines 503-536).  `none` models the Python errors
(rank-list `IndexError`, shape-dict `KeyError`, torch shape mismatch);
all early-return paths leave state and model unchanged. -/
def updateParameters (st : OptState) (model : Model) : Option (OptState × Model) :=
  match st.send_mod_m1 with
  | none => some (st, model)
  | some m1 =>
    (st.reduced_ranks.get? m1).bind fun prev_ranks =>
      if st.comm_rank ∉ prev_ranks then some (st, model)
      else match st.prev_params with
        | [] => some (st, model)
        | rec :: rest =>
          if st.apex then some (st, model)
          else
            let b : ℚ := (rec.batches_to_wait : ℚ)
            let numer : ℚ := if b > 0 then b * 2 else 1
            let denom : ℚ := (prev_ranks.length : ℚ) + numer
            let factor : ℚ := numer / denom
            let rcv := rec.buf.map (· / denom)
            (paramLoop (mergeOne rcv factor) rec.shapes model).map fun model' =>
              ({ st with prev_params := rest }, model')

/-- The error cases of the merge point of `_full_global_sync`. -/
inductive SyncErr where
  | tooManyPending
  | popEmptyPending
  | offRanksPending
  | shapeMismatch
deriving DecidableEq, Repr

/-- The merge point of `_full_global_sync` (lines 327-345), executed when
`current_batch == last_batch or batches_to_wait == 0`: a rank inside the
current reduced-communicator slot raises when more than one pending record
is queued, pops the single record, divides the summed buffer by the slot
size and writes every trainable parameter back; a rank outside the slot
raises when any record is queued. -/
def syncMergePoint (st : OptState) (model : Model) (currentRanks : List Nat) :
    Except SyncErr (OptState × Model) :=
  if st.comm_rank ∈ currentRanks then
    if 1 < st.prev_params.length then .error .tooManyPending
    else match st.prev_params with
      | [] => .error .popEmptyPending
      | rec :: _ =>
        let rcv := rec.buf.map (· / (currentRanks.length : ℚ))
        match paramLoop (unpackOne rcv) rec.shapes model with
        | none => .error .shapeMismatch
        | some model' => .ok ({ st with prev_params := [] }, model')
  else
    if 0 < st.prev_params.length then .error .offRanksPending
    else .ok (st, model)

/-- Whether the merge point raised (the `raise ValueError` paths of lines
329 and 342; never silently recovered). -/
def isFatal : Except SyncErr (OptState × Model) → Bool
  | .error _ => true
  | .ok _ => false

/-- `_local_torch_param_update` (lines 486-501): a `None` holder rank
returns immediately; otherwise, when torch.distributed is initialized,
every trainable parameter is overwritten by the broadcast value from the
holder rank (`peer`) and its name is recorded in the issued-broadcast
list (the `snds` dictionary); nothing happens otherwise. -/
def localTorchParamUpdate (holder : Option Nat) (distInit : Bool)
    (peer : String → List ℚ) (model : Model) : Model × List String :=
  match holder with
  | none => (model, [])
  | some _ =>
    if distInit then
      (model.map fun np =>
        if np.2.requires_grad then (np.1, { np.2 with data := peer np.1 }) else np,
       (model.filter (fun np => np.2.requires_grad)).map Prod.fst)
    else (model, [])

/-- The state mutated by `epoch_loss_logic` (constructor lines 142-152):
epoch counter, configuration, the skip triple, `epochs_to_wait` and the
rolling list `_prev_losses_mean`. -/
structure LossState where
  epoch : Nat
  warmup_epochs : Nat
  total_epochs : Nat
  global_skip : Nat
  local_skip : Nat
  batches_to_wait : Nat
  epochs_to_wait : Nat
  prev_losses_mean : List ℚ
deriving DecidableEq, Repr

/-- Python negative indexing `l[-k]` for the in-range uses of line 216
(`means[-1]` and `means[-1 * self.epochs_to_wait]`). -/
def negIndex (l : List ℚ) (k : Nat) : ℚ :=
  if k = 0 then l.getD 0 0 else l.getD (l.length - k) 0

/-- The skip triple `(global_skip, local_skip, batches_to_wait)`. -/
def skipTriple (st : LossState) : Nat × Nat × Nat :=
  (st.global_skip, st.local_skip, st.batches_to_wait)

/-- `epoch_loss_logic` (lines 181-239).  `lossVec` is the all-reduced
per-rank loss vector (lines 183-187); its mean is appended to the rolling
history, then the phase logic runs: warm-up forces `(0,0,0)`; the literal
`4 == self.epoch` check (line 198) escalates to `(4,1,1)` and clears the
history without returning; cool-down (`epoch >= total_epochs - 5`) forces
`(0,0,0)`; otherwise, once the history holds at least `epochs_to_wait`
entries, the stability test compares `means[-1]` against
`means[-epochs_to_wait]` with threshold `0.075` and mutates the triple. -/
def epochLossLogic (st : LossState) (lossVec : List ℚ) : LossState :=
  let avg : ℚ := lossVec.sum / (lossVec.length : ℚ)
  let st := { st with prev_losses_mean := st.prev_losses_mean ++ [avg] }
  if st.epoch < st.warmup_epochs then
    { st with global_skip := 0, local_skip := 0, batches_to_wait := 0 }
  else
    let st :=
      if st.epoch = 4 then
        { st with global_skip := 4, local_skip := 1, batches_to_wait := 1, prev_losses_mean := [] }
      else st
    if st.total_epochs - 5 ≤ st.epoch then
      { st with global_skip := 0, local_skip := 0, batches_to_wait := 0 }
    else if st.prev_losses_mean.length < st.epochs_to_wait then st
    else
      let diff := |negIndex st.prev_losses_mean 1 - negIndex st.prev_losses_mean st.epochs_to_wait|
      let stable := diff ≤ 3 / 40
      if stable ∧ 1 < st.global_skip then
        let st := { st with
          global_skip := st.global_skip / 2
          local_skip := st.local_skip / 2
          batches_to_wait := st.batches_to_wait / 2
          epochs_to_wait := st.epochs_to_wait + 1
          prev_losses_mean := [] }
        if 0 < st.global_skip then
          { st with
            batches_to_wait := if st.batches_to_wait = 0 then 1 else st.batches_to_wait
            local_skip := if st.local_skip = 0 then 1 else st.local_skip }
        else st
      else if st.global_skip = 1 ∧ stable then
        { st with global_skip := 8, local_skip := 2, batches_to_wait := 3,
                  prev_losses_mean := [], epochs_to_wait := 3 }
      else st

/-- The observable actions of one `step()` call, in execution order. -/
inductive StepEvent where
  | localOptStep
  | fullGlobalSync (btw : Nat)
  | startLocalSync
  | stopLocalSync
  | updateParams
  | localParamUpdate
  | incBatch
deriving DecidableEq, Repr

/-- Python `a % b`, `none` when `b = 0` (`ZeroDivisionError`).  Used for
the two unguarded modulus expressions of `step()` (lines 277 and 302);
the guarded ones (lines 264-265) are written with their explicit guard. -/
def pymod (a b : Nat) : Option Nat := if b = 0 then none else some (a % b)

/-- The control flow of `step()` (lines 245-308) as the ordered list of
actions it performs, `none` when Python would raise a zero-division.
`gmod`/`lmod` carry the explicit `if gs > 0` / `if ls > 0` guards of
lines 264-265 and `btw` is clamped to the remaining batches (lines
268-272); the branch structure mirrors lines 274-308 exactly, including
the fall-through from the `gmod == btw` merge into the local-sync
toggling. -/
def stepEvents (batch last gs ls btw0 : Nat) : Option (List StepEvent) :=
  let next := batch + 1
  let gmod := if 0 < gs then batch % gs else 0
  let lmod := if 0 < ls then batch % ls else 0
  let btw := if btw0 + batch ≤ last then btw0 else last - batch
  if batch = last ∨ gmod = 0 then
    some [.localOptStep, .fullGlobalSync btw]
  else
    (pymod next gs).bind fun ng =>
      if ng = 0 then some [.localOptStep, .startLocalSync, .incBatch]
      else if gmod < btw then
        some ([.localOptStep, .incBatch] ++ if next = last then [.startLocalSync] else [])
      else
        let pre : List StepEvent :=
          if gmod = btw then
            [.updateParams, .localParamUpdate] ++ if 1 < ls then [.stopLocalSync] else []
          else []
        if ls = 1 ∧ next ≠ last then
          some ([.localOptStep] ++ pre ++ [.incBatch, .startLocalSync])
        else
          (if lmod = 0 then some [StepEvent.stopLocalSync]
           else (pymod next ls).map fun nl =>
             if nl = 0 then [StepEvent.startLocalSync] else []).map fun mid =>
            [.localOptStep] ++ pre ++ mid
              ++ (if next = last then [.startLocalSync] else []) ++ [.incBatch]

/-- Concatenation of every parameter's flattened data, declaration order. -/
def flatAll : Model → List ℚ
  | [] => []
  | (_, p) :: rest => p.data ++ flatAll rest

lemma take_append_exact (a b : List ℚ) (k : Nat) (h : a.length = k) :
    (a ++ b).take k = a := by
  subst h; simp

lemma drop_append_exact (a b : List ℚ) (k : Nat) (h : a.length = k) :
    (a ++ b).drop k = b := by
  subst h; simp

lemma take_append_add (a b : List ℚ) (k m : Nat) (h : a.length = k) :
    (a ++ b).take (k + m) = a ++ b.take m := by
  subst h; simp [List.take_append]

lemma drop_append_add (a b : List ℚ) (k m : Nat) (h : a.length = k) :
    (a ++ b).drop (k + m) = b.drop m := by
  subst h; simp [List.drop_append]

lemma pySlice_append (pre mid post : List ℚ) (st : Nat) (h : pre.length = st) :
    pySlice (pre ++ mid ++ post) st (st + mid.length) = mid := by
  unfold pySlice
  rw [take_append_exact (pre ++ mid) post (st + mid.length) (by simp [h]),
    drop_append_exact pre mid st h]

lemma pySlice_length (l : List ℚ) (st en : Nat) (h : en ≤ l.length) :
    (pySlice l st en).length = en - st := by
  unfold pySlice
  simp [Nat.min_eq_left h]

lemma writeSlice_length (buf vals : List ℚ) (st : Nat)
    (h : st + vals.length ≤ buf.length) :
    (writeSlice buf st vals).length = buf.length := by
  unfold writeSlice
  simp only [List.length_append, List.length_take, List.length_drop]
  omega

/-- With every parameter trainable and storing exactly `numel` elements,
`__pack_data` writes the concatenation of all flattened parameters over
the given buffer at the running offset. -/
lemma packLoop_concat (castFn : ℚ → ℚ) (ps : Model) :
    ∀ (buf : List ℚ) (st : Nat),
      (∀ x ∈ ps, x.2.requires_grad = true ∧ x.2.data.length = numel x.2) →
      st + totalNumel ps ≤ buf.length →
      packLoop false castFn ps buf st =
        buf.take st ++ flatAll ps ++ buf.drop (st + totalNumel ps) := by
  induction ps with
  | nil =>
    intro buf st _ _
    simp [packLoop, flatAll, totalNumel, List.take_append_drop]
  | cons x rest ih =>
    obtain ⟨n, p⟩ := x
    intro buf st hall hle
    have hg : p.requires_grad = true := (hall (n, p) (List.mem_cons_self _ _)).1
    have hlen : p.data.length = numel p := (hall (n, p) (List.mem_cons_self _ _)).2
    have hrest : ∀ x ∈ rest, x.2.requires_grad = true ∧ x.2.data.length = numel x.2 :=
      fun x hx => hall x (List.mem_cons_of_mem _ hx)
    have htot : st + (numel p + totalNumel rest) ≤ buf.length := by
      simpa [totalNumel] using hle
    have hfit : st + p.data.length ≤ buf.length := by omega
    have hbuflen : (writeSlice buf st p.data).length = buf.length :=
      writeSlice_length buf p.data st hfit
    simp only [packLoop, hg, if_true, Bool.false_eq_true, if_false]
    rw [ih (writeSlice buf st p.data) (st + numel p) hrest (by rw [hbuflen]; omega)]
    have h1 : (writeSlice buf st p.data).take (st + numel p) = buf.take st ++ p.data := by
      unfold writeSlice
      exact take_append_exact _ _ _ (by simp [List.length_take]; omega)
    have h2 : (writeSlice buf st p.data).drop (st + numel p + totalNumel rest) =
        buf.drop (st + numel p + totalNumel rest) := by
      unfold writeSlice
      rw [drop_append_add (buf.take st ++ p.data) _ (st + numel p) (totalNumel rest)
        (by simp [List.length_take]; omega)]
      rw [List.drop_drop]
      congr 1
      omega
    rw [h1, h2]
    simp [flatAll, totalNumel, List.append_assoc, Nat.add_assoc]

lemma lookupEntry_append_none (l1 l2 : List (String × ShapeEntry)) (n : String)
    (h : lookupEntry l1 n = none) : lookupEntry (l1 ++ l2) n = lookupEntry l2 n := by
  induction l1 with
  | nil => simp
  | cons x t ih =>
    obtain ⟨k, e⟩ := x
    by_cases hx : k = n
    · simp [lookupEntry, hx] at h
    · simp only [lookupEntry, if_neg hx] at h
      simpa [lookupEntry, hx] using ih h

lemma lookupEntry_single_ne (n k : String) (e : ShapeEntry) (h : n ≠ k) :
    lookupEntry [(n, e)] k = none := by
  simp [lookupEntry, h]

/-- The per-parameter update loops, re-expressed positionally: the `i`-th
parameter is transformed with the contiguous offset range starting at the
sum of the element counts of the parameters before it. -/
def positionalLoop (f : TParam → ShapeEntry → Option TParam) : Nat → Model → Option Model
  | _, [] => some []
  | st, (n, p) :: rest =>
    (if p.requires_grad then
      (f p ⟨p.shape, st, st + numel p, p.dtype⟩).map fun p' => (n, p')
     else some (n, p)).bind fun h =>
      (positionalLoop f (st + numel p) rest).map fun r => h :: r

/-- With distinct parameter names, running a per-parameter update loop
against the shape dictionary (`shapes[name]` lookups) is the positional
loop: each parameter meets exactly its own offset range. -/
lemma paramLoop_eq_positional (f : TParam → ShapeEntry → Option TParam) :
    ∀ (ps : Model) (pre : List (String × ShapeEntry)) (st : Nat),
      (∀ x ∈ ps, lookupEntry pre x.1 = none) →
      (ps.map Prod.fst).Nodup →
      paramLoop f (pre ++ createShapesFrom st ps) ps = positionalLoop f st ps := by
  intro ps
  induction ps with
  | nil => intro pre st _ _; rfl
  | cons x rest ih =>
    obtain ⟨n, p⟩ := x
    intro pre st hpre hnd
    have hnd2 : (n :: rest.map Prod.fst).Nodup := by simpa using hnd
    have hnotin : n ∉ rest.map Prod.fst := (List.nodup_cons.mp hnd2).1
    have hndrest : (rest.map Prod.fst).Nodup := (List.nodup_cons.mp hnd2).2
    have hlook : lookupEntry (pre ++ createShapesFrom st ((n, p) :: rest)) n =
        some ⟨p.shape, st, st + numel p, p.dtype⟩ := by
      rw [lookupEntry_append_none _ _ n (hpre (n, p) (List.mem_cons_self _ _))]
      simp [createShapesFrom, lookupEntry]
    have htail : paramLoop f (pre ++ createShapesFrom st ((n, p) :: rest)) rest =
        positionalLoop f (st + numel p) rest := by
      have hshapes : pre ++ createShapesFrom st ((n, p) :: rest) =
          (pre ++ [(n, (⟨p.shape, st, st + numel p, p.dtype⟩ : ShapeEntry))])
            ++ createShapesFrom (st + numel p) rest := by
        simp [createShapesFrom, List.append_assoc]
      rw [hshapes]
      apply ih
      · intro x hx
        rw [lookupEntry_append_none _ _ _ (hpre x (List.mem_cons_of_mem _ hx))]
        refine lookupEntry_single_ne n x.1 _ fun he => hnotin ?_
        rw [he]
        exact List.mem_map_of_mem Prod.fst hx
      · simpa using hndrest
    simp only [paramLoop, positionalLoop, applyEntry, hlook, htail]

/-- Reading each parameter's own offset range back out of the
concatenation of all flattened parameters restores that parameter. -/
lemma positional_unpack_roundtrip :
    ∀ (ps : Model) (st : Nat) (pre post : List ℚ),
      pre.length = st →
      (∀ x ∈ ps, x.2.requires_grad = true ∧ x.2.data.length = numel x.2) →
      positionalLoop (unpackOne (pre ++ flatAll ps ++ post)) st ps = some ps := by
  intro ps
  induction ps with
  | nil => intro st pre post _ _; rfl
  | cons x rest ih =>
    obtain ⟨n, p⟩ := x
    intro st pre post hpre hall
    have hg : p.requires_grad = true := (hall (n, p) (List.mem_cons_self _ _)).1
    have hlen : p.data.length = numel p := (hall (n, p) (List.mem_cons_self _ _)).2
    have hrest : ∀ x ∈ rest, x.2.requires_grad = true ∧ x.2.data.length = numel x.2 :=
      fun x hx => hall x (List.mem_cons_of_mem _ hx)
    have hrcv : pre ++ flatAll ((n, p) :: rest) ++ post =
        pre ++ p.data ++ (flatAll rest ++ post) := by
      simp [flatAll, List.append_assoc]
    have hslice : pySlice (pre ++ flatAll ((n, p) :: rest) ++ post) st (st + numel p) = p.data := by
      rw [hrcv, ← hlen]
      exact pySlice_append pre p.data (flatAll rest ++ post) st hpre
    have hhead : unpackOne (pre ++ flatAll ((n, p) :: rest) ++ post) p
        ⟨p.shape, st, st + numel p, p.dtype⟩ = some p := by
      show (if (pySlice (pre ++ flatAll ((n, p) :: rest) ++ post) st (st + numel p)).length
            = p.shape.prod ∧ p.shape.prod = p.shape.prod then
          some { p with data := pySlice (pre ++ flatAll ((n, p) :: rest) ++ post) st (st + numel p) }
        else none) = some p
      rw [hslice, if_pos ⟨by rw [hlen]; rfl, rfl⟩]
    have htail : positionalLoop (unpackOne (pre ++ flatAll ((n, p) :: rest) ++ post))
        (st + numel p) rest = some rest := by
      have h2 : pre ++ flatAll ((n, p) :: rest) ++ post =
          (pre ++ p.data) ++ flatAll rest ++ post := by
        simp [flatAll, List.append_assoc]
      rw [h2]
      exact ih (st + numel p) (pre ++ p.data) post (by simp [hpre, hlen]) hrest
    simp only [positionalLoop, hg, if_true, hhead, htail, Option.map_some, Option.bind_some]
    rfl

/-- The write-back loop of the merge point never hits a torch shape error
when the received buffer covers the map's offset ranges. -/
lemma positional_unpack_isSome :
    ∀ (ps : Model) (st : Nat) (rcv : List ℚ),
      st + totalNumel ps ≤ rcv.length →
      ∃ m, positionalLoop (unpackOne rcv) st ps = some m := by
  intro ps
  induction ps with
  | nil => intro st rcv _; exact ⟨[], rfl⟩
  | cons x rest ih =>
    obtain ⟨n, p⟩ := x
    intro st rcv hle
    have hle2 : st + numel p + totalNumel rest ≤ rcv.length := by
      simp only [totalNumel] at hle; omega
    obtain ⟨m, hm⟩ := ih (st + numel p) rcv (by omega)
    by_cases hg : p.requires_grad
    · have hsl : (pySlice rcv st (st + numel p)).length = p.shape.prod := by
        rw [pySlice_length rcv st (st + numel p) (by omega)]
        simp [numel]
      have hhead : unpackOne rcv p ⟨p.shape, st, st + numel p, p.dtype⟩ =
          some { p with data := pySlice rcv st (st + numel p) } := by
        show (if (pySlice rcv st (st + numel p)).length = p.shape.prod
              ∧ p.shape.prod = p.shape.prod then
            some ({ p with data := pySlice rcv st (st + numel p) } : TParam) else none) =
          some ({ p with data := pySlice rcv st (st + numel p) } : TParam)
        rw [if_pos ⟨hsl, rfl⟩]
      refine ⟨(n, { p with data := pySlice rcv st (st + numel p) }) :: m, ?_⟩
      simp [positionalLoop, hg, hhead, hm]
    · refine ⟨(n, p) :: m, ?_⟩
      simp [positionalLoop, hg, hm]

/-- The merge loop of `_update_parameters` computes exactly the spec's
weighted-merge rule on every parameter. -/
lemma positional_merge_spec :
    ∀ (ps : Model) (st : Nat) (rcv : List ℚ) (factor : ℚ),
      (∀ x ∈ ps, x.2.data.length = numel x.2) →
      st + totalNumel ps ≤ rcv.length →
      positionalLoop (mergeOne rcv factor) st ps = some (mergeRuleSpec rcv factor st ps) := by
  intro ps
  induction ps with
  | nil => intro st rcv factor _ _; rfl
  | cons x rest ih =>
    obtain ⟨n, p⟩ := x
    intro st rcv factor hall hle
    have hlen : p.data.length = numel p := hall (n, p) (List.mem_cons_self _ _)
    have hrest : ∀ x ∈ rest, x.2.data.length = numel x.2 :=
      fun x hx => hall x (List.mem_cons_of_mem _ hx)
    have hle2 : st + numel p + totalNumel rest ≤ rcv.length := by
      simp only [totalNumel] at hle; omega
    have hsl : (pySlice rcv st (st + numel p)).length = p.shape.prod := by
      rw [pySlice_length rcv st (st + numel p) (by omega)]
      simp [numel]
    have hhead : mergeOne rcv factor p ⟨p.shape, st, st + numel p, p.dtype⟩ =
        some { p with data :=
          p.data.zipWith (fun o u => o * factor + u) (pySlice rcv st (st + numel p)) } := by
      show (if (pySlice rcv st (st + numel p)).length = p.shape.prod ∧ p.shape = p.shape
            ∧ p.data.length = p.shape.prod then
          some ({ p with data :=
            p.data.zipWith (fun o u => o * factor + u) (pySlice rcv st (st + numel p)) } : TParam)
        else none) =
        some ({ p with data :=
          p.data.zipWith (fun o u => o * factor + u) (pySlice rcv st (st + numel p)) } : TParam)
      rw [if_pos ⟨hsl, rfl, by rw [hlen]; rfl⟩]
    by_cases hg : p.requires_grad
    · simp [positionalLoop, mergeRuleSpec, hg, hhead,
        ih (st + numel p) rcv factor hrest (by omega)]
    · simp [positionalLoop, mergeRuleSpec, hg,
        ih (st + numel p) rcv factor hrest (by omega)]

/-- The rolling history after the current epoch's average is appended
(lines 183-190): previous `_prev_losses_mean` plus the mean of the
all-reduced per-rank loss vector. -/
def lossHist (st : LossState) (v : List ℚ) : List ℚ :=
  st.prev_losses_mean ++ [v.sum / (v.length : ℚ)]

/-- The stability test of lines 215-217: the absolute difference between
the latest average and the one `epochs_to_wait` entries back is at most
`0.075`. -/
def lossStable (st : LossState) (v : List ℚ) : Prop :=
  |negIndex (lossHist st v) 1 - negIndex (lossHist st v) st.epochs_to_wait| ≤ 3 / 40

/-- C5: in a steady-state epoch (past warm-up, not the literal epoch-4
escalation, before cool-down) with at least `epochs_to_wait` accumulated
loss averages, the controller branches exactly on the stability test
(`|diff| <= 0.075`): stable with `global_skip > 1` halves the three skip
values by integer division, increments `epochs_to_wait`, clears the
history and clamps `local_skip`/`batches_to_wait` back to 1 when the
halved `global_skip` stays positive; stable with `global_skip == 1` jumps
to `(8,2,3)` with `epochs_to_wait = 3`; a non-stable trend leaves the
skip state unchanged. -/
theorem c5_steady_state (st : LossState) (v : List ℚ)
    (h1 : st.warmup_epochs ≤ st.epoch) (h2 : st.epoch ≠ 4)
    (h3 : st.epoch < st.total_epochs - 5)
    (h4 : st.epochs_to_wait ≤ (lossHist st v).length) :
    ((lossStable st v ∧ 1 < st.global_skip) →
        epochLossLogic st v = { st with
          prev_losses_mean := []
          epochs_to_wait := st.epochs_to_wait + 1
          global_skip := st.global_skip / 2
          local_skip :=
            if 0 < st.global_skip / 2 ∧ st.local_skip / 2 = 0 then 1 else st.local_skip / 2
          batches_to_wait :=
            if 0 < st.global_skip / 2 ∧ st.batches_to_wait / 2 = 0 then 1
            else st.batches_to_wait / 2 })
    ∧ ((lossStable st v ∧ st.global_skip = 1) →
        epochLossLogic st v = { st with
          prev_losses_mean := []
          epochs_to_wait := 3
          global_skip := 8
          local_skip := 2
          batches_to_wait := 3 })
    ∧ (¬ lossStable st v →
        epochLossLogic st v = { st with prev_losses_mean := lossHist st v }) := by
  have hnw : ¬ st.epoch < st.warmup_epochs := not_lt.mpr h1
  have hcd : ¬ st.total_epochs - 5 ≤ st.epoch := not_le.mpr h3
  have hlen : ¬ (st.prev_losses_mean ++ [v.sum / (v.length : ℚ)]).length < st.epochs_to_wait := by
    simp only [lossHist, List.length_append, List.length_cons, List.length_nil] at h4
    simp only [List.length_append, List.length_cons, List.length_nil]
    omega
  refine ⟨?_, ?_, ?_⟩
  · rintro ⟨hst, hgs⟩
    have hstable : |negIndex (st.prev_losses_mean ++ [v.sum / (v.length : ℚ)]) 1 -
        negIndex (st.prev_losses_mean ++ [v.sum / (v.length : ℚ)]) st.epochs_to_wait|
        ≤ 3 / 40 := hst
    have hgp : 0 < st.global_skip / 2 := by omega
    simp only [epochLossLogic, hnw, if_false, h2, hcd, hlen, if_pos (And.intro hstable hgs),
      if_pos hgp]
    simp [hgp]
  · rintro ⟨hst, hgs⟩
    have hstable : |negIndex (st.prev_losses_mean ++ [v.sum / (v.length : ℚ)]) 1 -
        negIndex (st.prev_losses_mean ++ [v.sum / (v.length : ℚ)]) st.epochs_to_wait|
        ≤ 3 / 40 := hst
    have hng : ¬ 1 < st.global_skip := by omega
    simp only [epochLossLogic, hnw, if_false, h2, hcd, hlen]
    simp [hstable, hng, hgs]
  · intro hst
    have hnstable : ¬ |negIndex (st.prev_losses_mean ++ [v.sum / (v.length : ℚ)]) 1 -
        negIndex (st.prev_losses_mean ++ [v.sum / (v.length : ℚ)]) st.epochs_to_wait|
        ≤ 3 / 40 := hst
    simp only [epochLossLogic, hnw, if_false, h2, hcd, hlen]
    simp [hnstable, lossHist]

/-- A zero skip triple is preserved by any `epoch_loss_logic` call whose
epoch is not the literal escalation epoch 4: warm-up and cool-down force
zeros, and both steady-state escalation branches require a positive
`global_skip`. -/
lemma epochLossLogic_keeps_zero (st : LossState) (v : List ℚ)
    (h2 : st.epoch ≠ 4) (h3 : st.global_skip = 0) (h4 : st.local_skip = 0)
    (h5 : st.batches_to_wait = 0) :
    skipTriple (epochLossLogic st v) = (0, 0, 0) := by
  by_cases hw : st.epoch < st.warmup_epochs
  · simp [epochLossLogic, hw, skipTriple]
  · by_cases hcd : st.total_epochs - 5 ≤ st.epoch
    · simp [epochLossLogic, hw, h2, hcd, skipTriple]
    · by_cases hlen : (st.prev_losses_mean ++ [v.sum / (v.length : ℚ)]).length
          < st.epochs_to_wait
      · simp [epochLossLogic, hw, h2, hcd, hlen, skipTriple, h3, h4, h5]
      · simp [epochLossLogic, hw, h2, hcd, hlen, skipTriple, h3, h4, h5]

/-- Concrete run refuting C1 as stated: scheduler built with
`warmup_epochs = 2`, `total_epochs = 10`, at the first post-warm-up call
(`epoch == warmup_epochs == 2`, skip state `(0,0,0)`, two warm-up loss
averages accumulated).  The claim says this call sets the skip state to
`(4,1,1)` and clears the history; the code's trigger is the literal
`4 == self.epoch` (line 198), so the state stays `(0,0,0)` and the
history is not cleared. -/
theorem c1_counterexample :
    skipTriple (epochLossLogic ⟨2, 2, 10, 0, 0, 0, 3, [0, 0]⟩ [0]) = (0, 0, 0)
    ∧ (epochLossLogic ⟨2, 2, 10, 0, 0, 0, 3, [0, 0]⟩ [0]).prev_losses_mean = [0, 0, 0] := by
  constructor <;> norm_num [epochLossLogic, negIndex, skipTriple]

/-- C1 (amended): the `(4,1,1)` escalation fires on the call whose epoch
equals the literal constant 4 — not `warmup_epochs` — provided
`warmup_epochs ≤ 4` (otherwise the warm-up guard hides it) and the run is
long enough (`total_epochs ≥ 10`) that cool-down does not override it;
that call also clears the rolling history.  Consequently, with
`warmup_epochs = 2` the post-warm-up epochs other than 4 keep the skip
state `(0,0,0)` they inherit from warm-up, and only epoch 4 runs the
escalation. -/
theorem c1_amended (st st' : LossState) (v v' : List ℚ)
    (h1 : st.warmup_epochs ≤ st.epoch) (h2 : st.epoch = 4)
    (h3 : 10 ≤ st.total_epochs) (h4 : 1 ≤ st.epochs_to_wait)
    (g1 : st'.epoch ≠ 4) (g2 : st'.global_skip = 0) (g3 : st'.local_skip = 0)
    (g4 : st'.batches_to_wait = 0) :
    epochLossLogic st v = { st with
      global_skip := 4
      local_skip := 1
      batches_to_wait := 1
      prev_losses_mean := [] }
    ∧ skipTriple (epochLossLogic st' v') = (0, 0, 0) := by
  constructor
  · have hnw : ¬ st.epoch < st.warmup_epochs := not_lt.mpr (h2 ▸ h1)
    have hcd : ¬ st.total_epochs - 5 ≤ st.epoch := by omega
    have hlen : ([] : List ℚ).length < st.epochs_to_wait := by
      simpa using h4
    simp [epochLossLogic, hnw, h2, hcd, hlen]
    have ha : ¬ 4 < st.warmup_epochs := by omega
    have hb : ¬ st.total_epochs ≤ 9 := by omega
    simp [ha, hb, h4]
    exact fun h0 => absurd h0 (by omega)
  · exact epochLossLogic_keeps_zero st' v' g1 g2 g3 g4

/-- Witness instantiating `c1_amended` at the counterexample scenario
(`warmup_epochs = 2`, `total_epochs = 10`): epoch 4 escalates to
`(4,1,1)`, epoch 3 with a zero triple stays at `(0,0,0)`. -/
theorem c1_amended_witness :
    epochLossLogic ⟨4, 2, 10, 0, 0, 0, 3, [0, 0]⟩ [0] = ⟨4, 2, 10, 4, 1, 1, 3, []⟩
    ∧ skipTriple (epochLossLogic ⟨3, 2, 10, 0, 0, 0, 3, [0, 0, 0]⟩ [0]) = (0, 0, 0) :=
  c1_amended ⟨4, 2, 10, 0, 0, 0, 3, [0, 0]⟩ ⟨3, 2, 10, 0, 0, 0, 3, [0, 0, 0]⟩ [0] [0]
    (by decide) rfl (by decide) (by decide) (by decide) rfl rfl rfl

/-- C10: a scheduler constructed with `warmup_epochs > 4` keeps the skip
triple at `(0,0,0)` across every `epoch_loss_logic` call of the run: the
warm-up and cool-down branches force zeros, the literal `4 == epoch`
escalation is unreachable (epoch 4 is inside warm-up), and both
steady-state escalation branches require `global_skip ≥ 1`, so the zero
triple is invariant whatever the epoch and losses are. -/
theorem c10_large_warmup_stays_zero (st : LossState) (v : List ℚ)
    (h1 : 4 < st.warmup_epochs) (h2 : st.global_skip = 0)
    (h3 : st.local_skip = 0) (h4 : st.batches_to_wait = 0) :
    skipTriple (epochLossLogic st v) = (0, 0, 0) := by
  by_cases hw : st.epoch < st.warmup_epochs
  · simp [epochLossLogic, hw, skipTriple]
  · exact epochLossLogic_keeps_zero st v (by omega) h2 h3 h4

/-- Witness instantiating `c10_large_warmup_stays_zero` at
`warmup_epochs = 6`, epoch 5 (past the literal escalation epoch). -/
theorem c10_witness :
    skipTriple (epochLossLogic ⟨5, 6, 30, 0, 0, 0, 3, [1, 2, 3]⟩ [2]) = (0, 0, 0) :=
  c10_large_warmup_stays_zero ⟨5, 6, 30, 0, 0, 0, 3, [1, 2, 3]⟩ [2]
    (by decide) rfl rfl rfl

/-- Witness instantiating `c5_steady_state`: a steady-state epoch with a
flat loss history (stable trend) and `global_skip = 8` halves the triple
`(8,2,3)` to `(4,1,1)` and bumps `epochs_to_wait` from 3 to 4. -/
theorem c5_steady_state_witness :
    epochLossLogic ⟨6, 2, 20, 8, 2, 3, 3, [1, 1]⟩ [1] = ⟨6, 2, 20, 4, 1, 1, 4, []⟩ := by
  have h := (c5_steady_state ⟨6, 2, 20, 8, 2, 3, 3, [1, 1]⟩ [1]
    (by decide) (by decide) (by decide)
    (by norm_num [lossHist])).1
    (by constructor
        · show |negIndex (lossHist _ _) 1 - negIndex (lossHist _ _) 3| ≤ 3 / 40
          norm_num [lossHist, negIndex]
        · decide)
  rw [h]
  norm_num

/-- C6: (a) every `epoch_loss_logic` call during warm-up
(`epoch < warmup_epochs`) or cool-down (`epoch ≥ total_epochs - 5`)
leaves the skip state at exactly `(0,0,0)`; (b) with `global_skip = 0`
the orchestrator's `gmod` is defined as 0, so every `step()` call takes
the full-global-synchronization branch. -/
theorem c6_warmup_cooldown_full_sync (st : LossState) (v : List ℚ)
    (h : st.epoch < st.warmup_epochs ∨ st.total_epochs - 5 ≤ st.epoch)
    (batch last ls btw0 : Nat) :
    skipTriple (epochLossLogic st v) = (0, 0, 0)
    ∧ stepEvents batch last 0 ls btw0 =
        some [.localOptStep,
          .fullGlobalSync (if btw0 + batch ≤ last then btw0 else last - batch)] := by
  constructor
  · rcases h with hw | hcd
    · simp [epochLossLogic, hw, skipTriple]
    · by_cases hw2 : st.epoch < st.warmup_epochs
      · simp [epochLossLogic, hw2, skipTriple]
      · by_cases h4 : st.epoch = 4
        · have ha : ¬ 4 < st.warmup_epochs := by omega
          have hb : st.total_epochs ≤ 9 := by omega
          simp [epochLossLogic, hw2, h4, hcd, skipTriple, ha, hb]
        · simp [epochLossLogic, hw2, h4, hcd, skipTriple]
  · simp [stepEvents]

/-- Witness instantiating `c6_warmup_cooldown_full_sync` at a cool-down
epoch of the spec scenario (`warmup_epochs = 2`, `total_epochs = 10`,
epoch 5, `last_batch = 9`). -/
theorem c6_witness :
    skipTriple (epochLossLogic ⟨5, 2, 10, 4, 1, 1, 3, [1, 2]⟩ [3]) = (0, 0, 0)
    ∧ stepEvents 4 9 0 0 0 =
        some [.localOptStep, .fullGlobalSync (if 0 + 4 ≤ 9 then 0 else 9 - 4)] :=
  c6_warmup_cooldown_full_sync ⟨5, 2, 10, 4, 1, 1, 3, [1, 2]⟩ [3]
    (Or.inr (by decide)) 4 9 0 0

/-- C7: no `step()` call ever evaluates a modulus with a zero divisor:
`gmod` and `lmod` carry explicit zero guards, and the two unguarded
moduli (`next_batch % gs` at line 277 and `next_batch % ls` at line 302)
are only reachable when the respective skip value is positive, so the
event computation never hits the `ZeroDivisionError` case. -/
theorem c7_step_no_zero_division (batch last gs ls btw0 : Nat) :
    (stepEvents batch last gs ls btw0).isSome = true := by
  by_cases hfull : batch = last ∨ (0 < gs → batch % gs = 0)
  · simp [stepEvents, hfull]
  · have hgs : gs ≠ 0 := fun h0 => hfull (Or.inr fun hlt => absurd hlt (by omega))
    have hfull2 : ¬ (batch = last ∨ (if 0 < gs then batch % gs else 0) = 0) := by
      simpa using hfull
    have hpg : pymod (batch + 1) gs = some ((batch + 1) % gs) := if_neg hgs
    simp only [stepEvents, if_neg hfull2, hpg, Option.some_bind]
    by_cases hng : (batch + 1) % gs = 0
    · rw [if_pos hng]; rfl
    · rw [if_neg hng]
      by_cases hlt : (if 0 < gs then batch % gs else 0)
          < (if btw0 + batch ≤ last then btw0 else last - batch)
      · rw [if_pos hlt]; rfl
      · rw [if_neg hlt]
        by_cases hls1 : ls = 1 ∧ ¬ batch + 1 = last
        · rw [if_pos hls1]; rfl
        · rw [if_neg hls1]
          by_cases hlm : (if 0 < ls then batch % ls else 0) = 0
          · rw [if_pos hlm]; rfl
          · have hls : ls ≠ 0 := fun h0 => hlm (by simp [h0])
            rw [if_neg hlm, pymod, if_neg hls]
            rfl

/-- Special case of `paramLoop_eq_positional` for the freshly built map. -/
lemma paramLoop_map_eq (f : TParam → ShapeEntry → Option TParam) (model : Model)
    (h7 : (model.map Prod.fst).Nodup) :
    paramLoop f (createShapesFrom 0 model) model = positionalLoop f 0 model := by
  have h := paramLoop_eq_positional f model [] 0 (fun x _ => rfl) h7
  simpa using h

/-- C2: completing a pending reduction record with recorded
`batches_to_wait = b` over a participating rank set of size `n` computes
`numer = 2b` if `b > 0` else `1`, `denom = n + numer`,
`factor = numer / denom`, and rewrites every trainable parameter to
`param * factor + (buf / denom)[its offset range]` (reshaped and cast to
its declared shape and dtype), leaving non-trainable parameters
untouched and popping exactly the completed record. -/
theorem c2_weighted_merge (st : OptState) (model : Model) (k : Nat) (ranks : List Nat)
    (rec : PendingRec) (rest : List PendingRec)
    (h1 : st.send_mod_m1 = some k)
    (h2 : st.reduced_ranks.get? k = some ranks)
    (h3 : st.comm_rank ∈ ranks)
    (h4 : st.prev_params = rec :: rest)
    (h5 : st.apex = false)
    (h6 : rec.shapes = createShapesFrom 0 model)
    (h7 : (model.map Prod.fst).Nodup)
    (h8 : ∀ x ∈ model, x.2.data.length = numel x.2)
    (h9 : totalNumel model ≤ rec.buf.length) :
    updateParameters st model =
      some ({ st with prev_params := rest },
        mergeRuleSpec
          (rec.buf.map (· / ((ranks.length : ℚ) +
            (if (rec.batches_to_wait : ℚ) > 0 then (rec.batches_to_wait : ℚ) * 2 else 1))))
          ((if (rec.batches_to_wait : ℚ) > 0 then (rec.batches_to_wait : ℚ) * 2 else 1) /
            ((ranks.length : ℚ) +
              (if (rec.batches_to_wait : ℚ) > 0 then (rec.batches_to_wait : ℚ) * 2 else 1)))
          0 model) := by
  have hloop : paramLoop
      (mergeOne
        (rec.buf.map (· / ((ranks.length : ℚ) +
          (if (rec.batches_to_wait : ℚ) > 0 then (rec.batches_to_wait : ℚ) * 2 else 1))))
        ((if (rec.batches_to_wait : ℚ) > 0 then (rec.batches_to_wait : ℚ) * 2 else 1) /
          ((ranks.length : ℚ) +
            (if (rec.batches_to_wait : ℚ) > 0 then (rec.batches_to_wait : ℚ) * 2 else 1))))
      (createShapesFrom 0 model) model =
      some (mergeRuleSpec
        (rec.buf.map (· / ((ranks.length : ℚ) +
          (if (rec.batches_to_wait : ℚ) > 0 then (rec.batches_to_wait : ℚ) * 2 else 1))))
        ((if (rec.batches_to_wait : ℚ) > 0 then (rec.batches_to_wait : ℚ) * 2 else 1) /
          ((ranks.length : ℚ) +
            (if (rec.batches_to_wait : ℚ) > 0 then (rec.batches_to_wait : ℚ) * 2 else 1)))
        0 model) := by
    rw [paramLoop_map_eq _ _ h7]
    exact positional_merge_spec model 0 _ _ h8 (by simpa using h9)
  simp only [updateParameters, h1, h2, Option.some_bind, h4, h5, h6,
    if_neg (not_not_intro h3), Bool.false_eq_true, if_false, hloop, Option.map_some]
  simp [h1, h5]

/-- A 2x2 trainable parameter used by the concrete instances. -/
def exParamA : TParam := ⟨[2, 2], 0, true, [1, 2, 3, 4]⟩

/-- A scalar (0-dim, one element) trainable parameter. -/
def exParamS : TParam := ⟨[], 0, true, [7]⟩

/-- A zero-sized trainable parameter. -/
def exParamZ : TParam := ⟨[0], 0, true, []⟩

/-- A non-trainable parameter (`requires_grad = False`). -/
def exParamN : TParam := ⟨[1], 0, false, [5]⟩

/-- A small all-trainable model. -/
def exModelGrad : Model := [("a", exParamA), ("s", exParamS)]

/-- A completed pending record over `exModelGrad`: summed buffer of 8s,
`batches_to_wait = 1`. -/
def exRec : PendingRec := ⟨[8, 8, 8, 8, 8], createShapesFrom 0 exModelGrad, 1, none⟩

/-- Scheduler state holding `exRec`, previous slot 0 with ranks `[0, 2]`,
calling rank 0. -/
def exOptSt : OptState := ⟨0, [[0, 2]], 0, some 0, [exRec], false⟩

/-- Witness instantiating `c2_weighted_merge`: rank 0 of the slot
`[0, 2]` merges `exRec` (`b = 1`, so `numer = 2`, `denom = 4`,
`factor = 1/2`) into the two trainable parameters. -/
theorem c2_weighted_merge_witness :
    updateParameters exOptSt exModelGrad =
      some ({ exOptSt with prev_params := [] },
        mergeRuleSpec
          (exRec.buf.map (· / ((([0, 2] : List Nat).length : ℚ) +
            (if (exRec.batches_to_wait : ℚ) > 0 then (exRec.batches_to_wait : ℚ) * 2 else 1))))
          ((if (exRec.batches_to_wait : ℚ) > 0 then (exRec.batches_to_wait : ℚ) * 2 else 1) /
            ((([0, 2] : List Nat).length : ℚ) +
              (if (exRec.batches_to_wait : ℚ) > 0 then (exRec.batches_to_wait : ℚ) * 2 else 1)))
          0 exModelGrad) :=
  c2_weighted_merge exOptSt exModelGrad 0 [0, 2] exRec [] rfl rfl (by decide) rfl rfl rfl
    (by decide) (by decide) (by decide)

lemma createShapesFrom_keys : ∀ (ps : Model) (st : Nat),
    (createShapesFrom st ps).map Prod.fst = ps.map Prod.fst := by
  intro ps
  induction ps with
  | nil => intro st; rfl
  | cons x rest ih =>
    obtain ⟨n, p⟩ := x
    intro st
    simp [createShapesFrom, ih]

lemma createShapesFrom_get? : ∀ (ps : Model) (st i : Nat) (n : String) (p : TParam),
    ps.get? i = some (n, p) →
    (createShapesFrom st ps).get? i =
      some (n, ⟨p.shape, st + totalNumel (ps.take i),
        st + totalNumel (ps.take i) + numel p, p.dtype⟩) := by
  intro ps
  induction ps with
  | nil => intro st i n p h; simp at h
  | cons x rest ih =>
    obtain ⟨m, q⟩ := x
    intro st i n p h
    cases i with
    | zero =>
      simp only [List.get?] at h
      obtain ⟨rfl, rfl⟩ : m = n ∧ q = p := by
        have := Option.some.inj h
        exact ⟨congrArg Prod.fst this, congrArg Prod.snd this⟩
      simp [createShapesFrom, totalNumel]
    | succ j =>
      simp only [List.get?] at h
      have := ih (st + numel q) j n p h
      simp only [createShapesFrom, List.get?, this, List.take, totalNumel]
      congr 3
      · omega
      · omega

lemma flatAll_slice : ∀ (ps : Model) (i : Nat) (n : String) (p : TParam) (pre post : List ℚ),
    ps.get? i = some (n, p) →
    (∀ x ∈ ps, x.2.data.length = numel x.2) →
    pySlice (pre ++ flatAll ps ++ post) (pre.length + totalNumel (ps.take i))
      (pre.length + totalNumel (ps.take i) + numel p) = p.data := by
  intro ps
  induction ps with
  | nil => intro i n p pre post h _; simp at h
  | cons x rest ih =>
    obtain ⟨m, q⟩ := x
    intro i n p pre post h hall
    have hlenq : q.data.length = numel q := hall (m, q) (List.mem_cons_self _ _)
    have hrest : ∀ x ∈ rest, x.2.data.length = numel x.2 :=
      fun x hx => hall x (List.mem_cons_of_mem _ hx)
    cases i with
    | zero =>
      simp only [List.get?] at h
      obtain ⟨rfl, rfl⟩ : m = n ∧ q = p := by
        have := Option.some.inj h
        exact ⟨congrArg Prod.fst this, congrArg Prod.snd this⟩
      have hshape : pre ++ flatAll ((m, q) :: rest) ++ post =
          pre ++ q.data ++ (flatAll rest ++ post) := by
        simp [flatAll]
      simp only [List.take, totalNumel, Nat.add_zero]
      rw [hshape, ← hlenq]
      exact pySlice_append pre q.data (flatAll rest ++ post) pre.length rfl
    | succ j =>
      simp only [List.get?] at h
      have hshape : pre ++ flatAll ((m, q) :: rest) ++ post =
          (pre ++ q.data) ++ flatAll rest ++ post := by
        simp [flatAll]
      have := ih j n p (pre ++ q.data) post h hrest
      simp only [List.take, totalNumel]
      rw [hshape]
      have harith : pre.length + (numel q + totalNumel (rest.take j)) =
          (pre ++ q.data).length + totalNumel (rest.take j) := by
        simp [hlenq]
        omega
      rw [show pre.length + (numel q + totalNumel (rest.take j)) + numel p =
          (pre ++ q.data).length + totalNumel (rest.take j) + numel p by rw [harith],
        harith]
      exact this

/-- All-trainable packing fills the buffer with exactly the concatenation
of the flattened parameters. -/
lemma packData_allgrad (castFn : ℚ → ℚ) (ps : Model)
    (hall : ∀ x ∈ ps, x.2.requires_grad = true ∧ x.2.data.length = numel x.2) :
    packData false castFn ps (totalNumel ps) = flatAll ps := by
  unfold packData
  rw [packLoop_concat castFn ps _ 0 hall (by simp)]
  simp

/-- Concrete model refuting C3 as stated: a single parameter with
`requires_grad = False`.  `_create_param_dict_n_shapes` iterates
`named_parameters()` with no `requires_grad` filter (lines 420-424), so
the map still contains the parameter and the send-buffer size counts its
element — it does not equal the trainable element count (which is 0). -/
theorem c3_counterexample :
    (createParamDictNShapes [("a", exParamN)]).1.map Prod.fst = ["a"]
    ∧ exParamN.requires_grad = false
    ∧ (createParamDictNShapes [("a", exParamN)]).2 = 1
    ∧ specTrainableCount [("a", exParamN)] = 0
    ∧ (createParamDictNShapes [("a", exParamN)]).2 ≠ specTrainableCount [("a", exParamN)] :=
  ⟨rfl, rfl, rfl, rfl, by decide⟩

/-- C3 (amended): the Parameter Map contains an entry for every named
parameter — trainable or not — in declaration order, with contiguous
offset ranges accumulated over all parameters, and the flat send-buffer
size is the total element count of all parameters; `__pack_data` writes
only the trainable parameters, at its own contiguous offsets, so the map
and the packed buffer agree on every offset range exactly when every
parameter requires a gradient (the quantified third part). -/
theorem c3_param_map (ps : Model) (i : Nat) (n : String) (p : TParam)
    (hi : ps.get? i = some (n, p)) :
    ((createParamDictNShapes ps).1.map Prod.fst = ps.map Prod.fst)
    ∧ ((createParamDictNShapes ps).1.get? i =
        some (n, ⟨p.shape, totalNumel (ps.take i),
          totalNumel (ps.take i) + numel p, p.dtype⟩))
    ∧ ((∀ x ∈ ps, x.2.requires_grad = true ∧ x.2.data.length = numel x.2) →
        pySlice (packData false id ps (createParamDictNShapes ps).2)
          (totalNumel (ps.take i)) (totalNumel (ps.take i) + numel p) = p.data) := by
  refine ⟨createShapesFrom_keys ps 0, ?_, ?_⟩
  · have := createShapesFrom_get? ps 0 i n p hi
    simpa using this
  · intro hall
    have hpk : packData false id ps (createParamDictNShapes ps).2 = flatAll ps :=
      packData_allgrad id ps hall
    rw [hpk]
    have := flatAll_slice ps i n p [] [] hi (fun x hx => (hall x hx).2)
    simpa using this

/-- Witness instantiating `c3_param_map` at the second parameter of the
all-trainable example model. -/
theorem c3_param_map_witness :
    ((createParamDictNShapes exModelGrad).1.map Prod.fst = exModelGrad.map Prod.fst)
    ∧ ((createParamDictNShapes exModelGrad).1.get? 1 =
        some ("s", ⟨exParamS.shape, totalNumel (exModelGrad.take 1),
          totalNumel (exModelGrad.take 1) + numel exParamS, exParamS.dtype⟩))
    ∧ ((∀ x ∈ exModelGrad, x.2.requires_grad = true ∧ x.2.data.length = numel x.2) →
        pySlice (packData false id exModelGrad (createParamDictNShapes exModelGrad).2)
          (totalNumel (exModelGrad.take 1)) (totalNumel (exModelGrad.take 1) + numel exParamS)
          = exParamS.data) :=
  c3_param_map exModelGrad 1 "s" exParamS rfl

/-- A model mixing a leading non-trainable parameter with trainable ones
(including one multi-dimensional and one zero-sized). -/
def exModelMixed : Model := [("n", exParamN), ("a", exParamA), ("z", exParamZ)]

/-- Concrete run refuting C4 as stated: `exModelMixed` contains a
zero-sized and a multi-dimensional tensor, yet pack-then-unpack does not
restore the parameters — the non-trainable leading parameter occupies an
offset range in the map but not in the packed buffer, so the trainable
parameter behind it is read back shifted. -/
theorem c4_counterexample :
    (∃ x ∈ exModelMixed, numel x.2 = 0)
    ∧ (∃ x ∈ exModelMixed, 2 ≤ x.2.shape.length)
    ∧ paramLoop (unpackOne (packData false id exModelMixed (createParamDictNShapes exModelMixed).2))
        (createParamDictNShapes exModelMixed).1 exModelMixed ≠ some exModelMixed := by
  refine ⟨by decide, by decide, by decide⟩

/-- C4 (amended): for every parameter set containing at least one
zero-sized tensor and at least one multi-dimensional tensor, in which
every parameter requires a gradient (with distinct names and consistent
storage), packing into the flat buffer with no downcast and then
unpacking each map region (reshape to the declared shape, value-preserving
cast to the declared dtype, write back) restores every parameter exactly.
The all-trainable hypothesis is forced by `c4_counterexample`: with a
non-trainable parameter present the map offsets and the pack offsets
disagree. -/
theorem c4_pack_unpack_roundtrip (ps : Model)
    (hall : ∀ x ∈ ps, x.2.requires_grad = true ∧ x.2.data.length = numel x.2)
    (hnd : (ps.map Prod.fst).Nodup)
    (hzero : ∃ x ∈ ps, numel x.2 = 0)
    (hmulti : ∃ x ∈ ps, 2 ≤ x.2.shape.length) :
    paramLoop (unpackOne (packData false id ps (createParamDictNShapes ps).2))
      (createParamDictNShapes ps).1 ps = some ps := by
  have hpk : packData false id ps (createParamDictNShapes ps).2 = flatAll ps :=
    packData_allgrad id ps hall
  rw [hpk]
  show paramLoop (unpackOne (flatAll ps)) (createShapesFrom 0 ps) ps = some ps
  rw [paramLoop_map_eq _ _ hnd]
  have := positional_unpack_roundtrip ps 0 [] [] rfl hall
  simpa using this

/-- An all-trainable model with a multi-dimensional, a zero-sized and a
scalar parameter. -/
def exModelRound : Model := [("a", exParamA), ("z", exParamZ), ("s", exParamS)]

/-- Witness instantiating `c4_pack_unpack_roundtrip` on `exModelRound`. -/
theorem c4_pack_unpack_roundtrip_witness :
    paramLoop (unpackOne (packData false id exModelRound (createParamDictNShapes exModelRound).2))
      (createParamDictNShapes exModelRound).1 exModelRound = some exModelRound :=
  c4_pack_unpack_roundtrip exModelRound (by decide) (by decide) (by decide) (by decide)

/-- The write-back at the merge point succeeds whenever the received
buffer covers the fresh map of the live model. -/
lemma unpack_success (model : Model) (hnd : (model.map Prod.fst).Nodup)
    (rcv : List ℚ) (hlen : totalNumel model ≤ rcv.length) :
    ∃ m, paramLoop (unpackOne rcv) (createShapesFrom 0 model) model = some m := by
  rw [paramLoop_map_eq _ _ hnd]
  exact positional_unpack_isSome model 0 rcv (by omega)

/-- C8: at the merge point of `_full_global_sync` (lines 327-345, outside
the dual-precision apex mode), a rank belonging to the current
reduced-communicator slot raises exactly when more than one pending
record is queued (there is at least one, since the rank just issued its
own reduction), and a rank outside the slot raises exactly when any
pending record is queued; an error is returned, never recovered. -/
theorem c8_merge_point_invariant (st st' : OptState) (model model' : Model)
    (cr cr' : List Nat) (rec : PendingRec) (rest : List PendingRec)
    (hin : st.comm_rank ∈ cr)
    (hp : st.prev_params = rec :: rest)
    (hs : rec.shapes = createShapesFrom 0 model)
    (hnd : (model.map Prod.fst).Nodup)
    (hb : totalNumel model ≤ rec.buf.length)
    (hout : st'.comm_rank ∉ cr') :
    (isFatal (syncMergePoint st model cr) = true ↔ 1 < st.prev_params.length)
    ∧ (isFatal (syncMergePoint st' model' cr') = true ↔ 0 < st'.prev_params.length) := by
  constructor
  · by_cases hlong : 1 < st.prev_params.length
    · simp [syncMergePoint, hin, hlong, isFatal]
    · have hr : rest = [] := by
        rw [hp] at hlong
        cases rest with
        | nil => rfl
        | cons a b => exact absurd (by simp only [List.length_cons]; omega) hlong
      subst hr
      obtain ⟨m, hm⟩ := unpack_success model hnd (rec.buf.map (· / (cr.length : ℚ)))
        (by simpa using hb)
      rw [← hs] at hm
      simp [syncMergePoint, hin, hlong, hp, isFatal, hm]
  · by_cases h0 : 0 < st'.prev_params.length
    · simp [syncMergePoint, hout, h0, isFatal]
    · simp [syncMergePoint, hout, h0, isFatal]

/-- Witness instantiating `c8_merge_point_invariant`: rank 0 inside slot
`[0, 2]` with exactly one pending record merges without error; rank 1
outside the slot with one queued record is fatal. -/
theorem c8_merge_point_invariant_witness :
    (isFatal (syncMergePoint exOptSt exModelGrad [0, 2]) = true
      ↔ 1 < exOptSt.prev_params.length)
    ∧ (isFatal (syncMergePoint { exOptSt with comm_rank := 1 } exModelGrad [0, 2]) = true
      ↔ 0 < ({ exOptSt with comm_rank := 1 } : OptState).prev_params.length) :=
  c8_merge_point_invariant exOptSt { exOptSt with comm_rank := 1 } exModelGrad exModelGrad
    [0, 2] [0, 2] exRec [] (by decide) rfl rfl (by decide) (by decide) (by decide)

/-- C9: all three guard paths of `_update_parameters` — previous-slot
marker `None`, calling rank outside the previous slot, empty
pending-record list — return with the scheduler state and every model
parameter unchanged, and `_local_torch_param_update` with a `None`
holder rank issues no broadcast and modifies nothing. -/
theorem c9_noop_paths (st1 st2 st3 : OptState) (model : Model) (k2 k3 : Nat)
    (r2 r3 : List Nat) (distInit : Bool) (peer : String → List ℚ)
    (h1 : st1.send_mod_m1 = none)
    (h2a : st2.send_mod_m1 = some k2) (h2b : st2.reduced_ranks.get? k2 = some r2)
    (h2c : st2.comm_rank ∉ r2)
    (h3a : st3.send_mod_m1 = some k3) (h3b : st3.reduced_ranks.get? k3 = some r3)
    (h3c : st3.comm_rank ∈ r3) (h3d : st3.prev_params = []) :
    updateParameters st1 model = some (st1, model)
    ∧ updateParameters st2 model = some (st2, model)
    ∧ updateParameters st3 model = some (st3, model)
    ∧ localTorchParamUpdate none distInit peer model = (model, []) := by
  refine ⟨?_, ?_, ?_, rfl⟩
  · simp [updateParameters, h1]
  · simp only [updateParameters, h2a]
    rw [h2b]
    simp only [Option.some_bind]
    rw [if_pos h2c]
  · simp only [updateParameters, h3a]
    rw [h3b]
    simp only [Option.some_bind]
    rw [if_neg (not_not_intro h3c), h3d]

/-- Witness instantiating `c9_noop_paths` on three concrete states: no
previous slot, rank 1 outside slot `[0, 2]`, and an empty pending list. -/
theorem c9_noop_paths_witness :
    updateParameters { exOptSt with send_mod_m1 := none } exModelGrad
      = some ({ exOptSt with send_mod_m1 := none }, exModelGrad)
    ∧ updateParameters { exOptSt with comm_rank := 1 } exModelGrad
      = some ({ exOptSt with comm_rank := 1 }, exModelGrad)
    ∧ updateParameters { exOptSt with prev_params := [] } exModelGrad
      = some ({ exOptSt with prev_params := [] }, exModelGrad)
    ∧ localTorchParamUpdate none false (fun _ => []) exModelGrad = (exModelGrad, []) :=
  c9_noop_paths { exOptSt with send_mod_m1 := none } { exOptSt with comm_rank := 1 }
    { exOptSt with prev_params := [] } exModelGrad 0 0 [0, 2] [0, 2] false (fun _ => [])
    rfl rfl rfl (by decide) rfl rfl (by decide) rfl
